import Mathlib

/-!
Verification of the exetel-api client against its specification.

The definitions below are a shallow embedding of the Rust sources:
`src/auth.rs` (login query serialization, login response decoding, the
`Authorization` value and its `should_refresh` predicate), `src/client.rs`
(the typed-query decode pipeline for `GetServices`) and `src/customer.rs`
(the `Price`, `Percentage` and date codecs and the `Services` record
decoding).  JSON values are modelled by an inductive type, machine
integers by `Nat` with explicit bounds and wrap-around written as
`% 2 ^ 32`, fallible operations by `Except`.  A Rust panic is modelled as
the distinguished error value `DecErr.panic`.
-/

namespace Exetel

/-- JSON values as handled by serde_json in this crate: null, booleans,
integral numbers (the API only uses integral numbers), strings, arrays
and objects given as ordered field lists. -/
inductive Json where
  | null : Json
  | bool : Bool → Json
  | num : Int → Json
  | str : String → Json
  | arr : List Json → Json
  | obj : List (String × Json) → Json

/-- Decode failures: `fail` models an ordinary serde/anyhow error value,
`panic` models a Rust panic. -/
inductive DecErr where
  | fail : DecErr
  | panic : DecErr
deriving DecidableEq

/-- Whether an `Except` computation succeeded. -/
def resultOk : Except DecErr α → Bool
  | .ok _ => true
  | .error _ => false

/-- Result of looking a field name up in a JSON object, as the derived
serde deserializers do: absent, present exactly once, or duplicated
(serde_json rejects a duplicated known field). -/
inductive FieldGet where
  | missing : FieldGet
  | dup : FieldGet
  | found : Json → FieldGet

/-- Look up a field of a JSON object. -/
def getField (fs : List (String × Json)) (name : String) : FieldGet :=
  match fs.filter (fun p => p.1 = name) with
  | [] => .missing
  | [p] => .found p.2
  | _ => .dup

/-- A required struct field: serde errors when it is missing or
duplicated, otherwise decodes the value. -/
def reqField (fs : List (String × Json)) (name : String)
    (f : Json → Except DecErr α) : Except DecErr α :=
  match getField fs name with
  | .found j => f j
  | _ => .error .fail

/-- An optional struct field (serde `Option` fields default to `None`
when the field is absent). -/
def optField (fs : List (String × Json)) (name : String)
    (f : Json → Except DecErr α) : Except DecErr (Option α) :=
  match getField fs name with
  | .missing => .ok none
  | .dup => .error .fail
  | .found j => f j |>.map some

/-- Decode a JSON boolean. -/
def decodeBoolJ : Json → Except DecErr Bool
  | .bool b => .ok b
  | _ => .error .fail

/-- Decode a JSON string. -/
def decodeStringJ : Json → Except DecErr String
  | .str s => .ok s
  | _ => .error .fail

/-- Decode a Rust `u64` from a JSON number: integral and within bounds. -/
def decodeU64 : Json → Except DecErr Nat
  | .num n => if 0 ≤ n ∧ n < 18446744073709551616 then .ok n.toNat else .error .fail
  | _ => .error .fail

/-- Decode a Rust `u32` from a JSON number: integral and within bounds. -/
def decodeU32 : Json → Except DecErr Nat
  | .num n => if 0 ≤ n ∧ n < 4294967296 then .ok n.toNat else .error .fail
  | _ => .error .fail

/-! ## Decimal digits

Infrastructure shared by the numeric codecs: Rust's `Display` for
unsigned integers and `str::parse` for `u32`/`u64`. -/

/-- The ASCII character of a decimal digit. -/
def digitChar (d : Nat) : Char := Char.ofNat (48 + d)

/-- The decimal digit denoted by a character, if any. -/
def charDigit (c : Char) : Option Nat :=
  if '0' ≤ c ∧ c ≤ '9' then some (c.toNat - 48) else none

/-- Decimal digits of a positive number, most significant first (empty
for zero); the first argument is structural fuel, always instantiated
with the number itself. -/
def natDigitsAux : Nat → Nat → List Nat
  | 0, _ => []
  | fuel + 1, n => if n = 0 then [] else natDigitsAux fuel (n / 10) ++ [n % 10]

/-- Decimal digits of a positive number, most significant first. -/
def natDigits (n : Nat) : List Nat := natDigitsAux n n

/-- Decimal digits of a number as printed by Rust's `Display` (so zero
prints as a single `0` digit). -/
def natDigitsPad (n : Nat) : List Nat := if n = 0 then [0] else natDigits n

/-- The decimal rendering of an unsigned integer, as Rust's `Display`. -/
def natDecimalChars (n : Nat) : List Char := (natDigitsPad n).map digitChar

/-- Value of a digit list, most significant first, on top of an
accumulator. -/
def ofDigitsAcc (acc : Nat) (ds : List Nat) : Nat :=
  ds.foldl (fun a d => 10 * a + d) acc

/-- The largest value of a `u32`. -/
def u32Max : Nat := 4294967295

/-- The modulus of `u32` arithmetic. -/
def u32Mod : Nat := 4294967296

/-- Digit-accumulation loop of Rust's checked `from_str_radix` for
unsigned integers: every character must be a decimal digit and every
intermediate value must stay within `maxVal`, else the parse errors. -/
def parseDigitsAcc (maxVal : Nat) (acc : Nat) : List Char → Except Unit Nat
  | [] => .ok acc
  | c :: cs =>
    match charDigit c with
    | none => .error ()
    | some d =>
      if maxVal < 10 * acc + d then .error ()
      else parseDigitsAcc maxVal (10 * acc + d) cs

/-- Rust's `str::parse` for an unsigned integer type with largest value
`maxVal`: one optional leading `+` sign, then at least one decimal
digit, rejecting overflow. -/
def parseUInt (maxVal : Nat) (cs : List Char) : Except Unit Nat :=
  match cs with
  | [] => .error ()
  | c :: rest =>
    if c = '+' then
      if rest = [] then .error () else parseDigitsAcc maxVal 0 rest
    else parseDigitsAcc maxVal 0 (c :: rest)

/-! ## Price (src/customer.rs)

`Price` is a `u32` number of cents.  `FromStr` strips one optional
leading `$` (by slicing the first byte, which panics when the first
character is a multi-byte UTF-8 character), splits on `.`, appends a
`"0"` fractional group when only one group is present, and accumulates
`value = value * 100 + group` over the first two groups with wrapping
`u32` arithmetic. -/

/-- Rust's `str::split('.')` on a character list: the `.`-separated
groups, including empty ones. -/
def splitDot : List Char → List (List Char)
  | [] => [[]]
  | c :: cs =>
    if c = '.' then [] :: splitDot cs
    else
      match splitDot cs with
      | g :: gs => (c :: g) :: gs
      | [] => [[c]]

/-- The accumulation loop of `Price::from_str`: for each group,
`value *= 100; value += group.parse::<u32>()?`, with wrapping `u32`
arithmetic for the accumulator. -/
def priceAccum : Nat → List (List Char) → Except DecErr Nat
  | value, [] => .ok value
  | value, g :: gs =>
    match parseUInt u32Max g with
    | .error _ => .error .fail
    | .ok n => priceAccum ((value * 100 % u32Mod + n) % u32Mod) gs

/-- The body of `Price::from_str` after the optional `$` has been
handled: split on `.`, default the missing fractional group to `"0"`,
and fold the first two groups. -/
def priceBody (text : List Char) : Except DecErr Nat :=
  let amounts := splitDot text
  let amounts := if amounts.length = 1 then amounts ++ [['0']] else amounts
  priceAccum 0 (amounts.take 2)

/-- `Price::from_str`: the leading-`$` check slices the first byte of
the string (`&text[0..1]`), which panics when the first character
occupies more than one byte. -/
def priceFromChars (text : List Char) : Except DecErr Nat :=
  match text with
  | [] => priceBody []
  | c :: rest =>
    if c = '$' then priceBody rest
    else if 1 < c.utf8Size then .error .panic
    else priceBody (c :: rest)

/-- `Price::from_str` on a string. -/
def priceFromStr (s : String) : Except DecErr Nat := priceFromChars s.data

/-- Zero-padding to two digits, as Rust's `{:02}` format. -/
def pad2Chars (n : Nat) : List Char :=
  if n < 10 then '0' :: natDecimalChars n else natDecimalChars n

/-- The `Display` implementation of `Price`: dollars, a dot, and the
cents zero-padded to two digits, with a leading `$`. -/
def priceFormatChars (c : Nat) : List Char :=
  '$' :: (natDecimalChars (c / 100) ++ '.' :: pad2Chars (c % 100))

/-- The `Display` implementation of `Price`, as a string. -/
def priceFormat (c : Nat) : String := String.mk (priceFormatChars c)

/-- Whether a string's first character, if any, is a single UTF-8 byte
(so that the `&text[0..1]` slice in `Price::from_str` cannot panic). -/
def headOneByte (s : String) : Bool :=
  match s.data with
  | [] => true
  | c :: _ => c.utf8Size = 1

/-! ## Percentage (src/customer.rs)

`Percentage` wraps a `u32`; its wire codec is the identity on `u32`
(`from = "u32"`, `into = "u32"`), and its display form appends `%`. -/

/-- The wire decoding of `Percentage`: a `u32` taken as-is. -/
def decodePercentage (j : Json) : Except DecErr Nat := decodeU32 j

/-- The wire encoding of `Percentage`: the wrapped `u32` as-is. -/
def encodePercentage (n : Nat) : Json := .num n

/-- The `Display` implementation of `Percentage`. -/
def percentageDisplay (n : Nat) : String :=
  String.mk (natDecimalChars n ++ ['%'])

/-! ## Authorization (src/auth.rs) -/

/-- An authorization token (a transparent newtype over a string). -/
structure Token where
  val : String
deriving DecidableEq

/-- The manner in which the token should be used; the only variant is
`Bearer`. -/
inductive TokenType where
  | bearer : TokenType
deriving DecidableEq

/-- The login response record.  The serde field names are the Rust
field names (`token_type`, `expires_in`, `access_token`,
`refresh_token`) except for `persist_login`, renamed `persistLogin`. -/
structure LoginResponse where
  token_type : TokenType
  expires_in : Nat
  access_token : Token
  refresh_token : Token
  persist_login : Bool
deriving DecidableEq

/-- Decode the externally-tagged unit enum `TokenType` from its variant
name. -/
def decodeTokenType : Json → Except DecErr TokenType
  | .str s => if s = "Bearer" then .ok .bearer else .error .fail
  | _ => .error .fail

/-- Decode a transparent `Token` from a JSON string. -/
def decodeToken (j : Json) : Except DecErr Token :=
  (decodeStringJ j).map Token.mk

/-- Decode the login `Response` struct: all five fields are required,
unknown fields are ignored. -/
def decodeLoginResponse : Json → Except DecErr LoginResponse
  | .obj fs => do
    let tt ← reqField fs "token_type" decodeTokenType
    let ei ← reqField fs "expires_in" decodeU64
    let tok ← reqField fs "access_token" decodeToken
    let rtok ← reqField fs "refresh_token" decodeToken
    let pl ← reqField fs "persistLogin" decodeBoolJ
    .ok ⟨tt, ei, tok, rtok, pl⟩
  | _ => .error .fail

/-- The `Authorization` value: the `SystemTime` at which the login
response was received (seconds since the epoch) and the decoded login
response. -/
structure Authorization where
  last_refreshed : Nat
  last_response : LoginResponse
deriving DecidableEq

/-- The `REFRESH_WINDOW` constant: five minutes in seconds. -/
def refreshWindow : Nat := 5 * 60

/-- `Authorization::expires_at`: the issue time plus the advertised
lifetime. -/
def Authorization.expires_at (a : Authorization) : Nat :=
  a.last_refreshed + a.last_response.expires_in

/-- `Authorization::should_refresh` at clock reading `now`: the source
computes `self.expires_at() + REFRESH_WINDOW > SystemTime::now()`. -/
def Authorization.should_refresh (a : Authorization) (now : Nat) : Bool :=
  a.expires_at + refreshWindow > now

/-- The post-transport part of `Authorization::authenticate_with`: the
HTTP response arrives with a status code and a body; the body text is
parsed as JSON (`none` models text that is not JSON) and decoded into a
login `Response`, and `last_refreshed` is stamped with the clock
reading `now` taken at response receipt.  The source never inspects the
status code (reqwest's `send` does not fail on non-2xx statuses and
`error_for_status` is never called). -/
def authenticateWith (status : Nat) (body : Option Json) (now : Nat) :
    Except DecErr Authorization :=
  match body with
  | none => .error .fail
  | some j => (decodeLoginResponse j).map fun r => ⟨now, r⟩

/-- The login request body struct of src/auth.rs, with its serde
attributes applied at serialization time. -/
structure AuthQuery where
  access_token : Option Token
  password : String
  persist_login : Bool
  username : String

/-- `Query::new`: only the credentials are set, the rest is defaulted
(`access_token = None`, `persist_login = false`). -/
def AuthQuery.new (username password : String) : AuthQuery :=
  ⟨none, password, false, username⟩

/-- Serialize an optional token (`None` becomes JSON null). -/
def serializeOptToken : Option Token → Json
  | none => .null
  | some t => .str t.val

/-- Serde serialization of the login request body: fields in declaration
order; the `accessToken` field carries the attribute
`skip_serializing_if = "Option::is_some"`, so it is skipped exactly when
the option holds a value. -/
def AuthQuery.serialize (q : AuthQuery) : Json :=
  .obj ((if q.access_token.isSome then []
         else [("accessToken", serializeOptToken q.access_token)])
    ++ [("password", .str q.password), ("persistLogin", .bool q.persist_login),
        ("username", .str q.username)])

/-! ## Date codecs (src/customer.rs)

The service record parses and formats dates through chrono's
`NaiveDate` with the patterns `%e %b %Y` (long) and `%e %b %y` (short).
The functions below are the relevant chrono behaviour for those
patterns, per chrono's documentation: `%e` is the day of month
space-padded to two characters, `%b` the abbreviated month name
(matched case-insensitively when parsing), `%Y` the full year
zero-padded to four digits with a leading sign when negative, `%y` the
two-digit year (values 00-68 meaning 2000-2068 and 69-99 meaning
1969-1999 when parsing); numeric fields skip preceding whitespace, a
literal space in the pattern matches any run of whitespace, and the
whole input must be consumed.  The model leaves the year unbounded
where chrono restricts it to roughly plus or minus 262000; no claim
touches that bound. -/

/-- A calendar date. -/
structure Date where
  year : Int
  month : Nat
  day : Nat
deriving DecidableEq

/-- Gregorian leap-year rule. -/
def isLeap (y : Int) : Bool := y % 4 = 0 && (y % 100 != 0 || y % 400 = 0)

/-- Number of days in a month of a given year. -/
def daysInMonth (y : Int) (m : Nat) : Nat :=
  if m = 2 then (if isLeap y then 29 else 28)
  else if m = 4 || m = 6 || m = 9 || m = 11 then 30
  else 31

/-- Validity of a calendar date. -/
def validDate (d : Date) : Bool :=
  1 ≤ d.month && d.month ≤ 12 && 1 ≤ d.day && d.day ≤ daysInMonth d.year d.month

/-- The abbreviated month names used by chrono's `%b`. -/
def monthAbbrev : Nat → List Char
  | 1 => ['J', 'a', 'n']
  | 2 => ['F', 'e', 'b']
  | 3 => ['M', 'a', 'r']
  | 4 => ['A', 'p', 'r']
  | 5 => ['M', 'a', 'y']
  | 6 => ['J', 'u', 'n']
  | 7 => ['J', 'u', 'l']
  | 8 => ['A', 'u', 'g']
  | 9 => ['S', 'e', 'p']
  | 10 => ['O', 'c', 't']
  | 11 => ['N', 'o', 'v']
  | 12 => ['D', 'e', 'c']
  | _ => []

/-- Case-insensitive lookup of a three-letter month abbreviation. -/
def monthFromAbbrev (cs : List Char) : Option Nat :=
  let l := cs.map Char.toLower
  if l = ['j', 'a', 'n'] then some 1
  else if l = ['f', 'e', 'b'] then some 2
  else if l = ['m', 'a', 'r'] then some 3
  else if l = ['a', 'p', 'r'] then some 4
  else if l = ['m', 'a', 'y'] then some 5
  else if l = ['j', 'u', 'n'] then some 6
  else if l = ['j', 'u', 'l'] then some 7
  else if l = ['a', 'u', 'g'] then some 8
  else if l = ['s', 'e', 'p'] then some 9
  else if l = ['o', 'c', 't'] then some 10
  else if l = ['n', 'o', 'v'] then some 11
  else if l = ['d', 'e', 'c'] then some 12
  else none

/-- Day of month space-padded to two characters, as chrono's `%e`. -/
def padSpace2 (n : Nat) : List Char :=
  if n < 10 then ' ' :: natDecimalChars n else natDecimalChars n

/-- Year digits zero-padded to four, as chrono's `%Y` for non-negative
years. -/
def pad4Digits (n : Nat) : List Nat :=
  List.replicate (4 - (natDigitsPad n).length) 0 ++ natDigitsPad n

/-- Full year as formatted by chrono's `%Y`: zero-padded to four
digits, with a leading minus sign for negative years. -/
def yearChars4 (y : Int) : List Char :=
  if y < 0 then '-' :: (pad4Digits (-y).toNat).map digitChar
  else (pad4Digits y.toNat).map digitChar

/-- `unparse_date`: format a date with the pattern `%e %b %Y`. -/
def formatLongDate (d : Date) : List Char :=
  padSpace2 d.day ++ ' ' :: (monthAbbrev d.month ++ ' ' :: yearChars4 d.year)

/-- Skip a run of whitespace characters. -/
def skipWs : List Char → List Char
  | [] => []
  | c :: cs => if c.isWhitespace then skipWs cs else c :: cs

/-- Take all leading decimal digits. -/
def takeDigitsAll : List Char → List Nat × List Char
  | [] => ([], [])
  | c :: cs =>
    match charDigit c with
    | none => ([], c :: cs)
    | some d =>
      let r := takeDigitsAll cs
      (d :: r.1, r.2)

/-- Take at most `n` leading decimal digits. -/
def takeDigitsN : Nat → List Char → List Nat × List Char
  | 0, cs => ([], cs)
  | _ + 1, [] => ([], [])
  | n + 1, c :: cs =>
    match charDigit c with
    | none => ([], c :: cs)
    | some d =>
      let r := takeDigitsN n cs
      (d :: r.1, r.2)

/-- Parse a `%Y` year: an optional sign followed by decimal digits. -/
def parseYear4 (cs : List Char) : Option (Int × List Char) :=
  match cs with
  | [] => none
  | c :: rest =>
    if c = '-' then
      let r := takeDigitsAll rest
      if r.1 = [] then none else some (-(ofDigitsAcc 0 r.1 : Int), r.2)
    else if c = '+' then
      let r := takeDigitsAll rest
      if r.1 = [] then none else some ((ofDigitsAcc 0 r.1 : Int), r.2)
    else
      let r := takeDigitsAll cs
      if r.1 = [] then none else some ((ofDigitsAcc 0 r.1 : Int), r.2)

/-- `parse_date`: parse the pattern `%e %b %Y`, requiring the input to
be fully consumed and the resulting date to be valid. -/
def parseLongDate (cs : List Char) : Option Date :=
  let s0 := skipWs cs
  let rd := takeDigitsN 2 s0
  if rd.1 = [] then none
  else
    let day := ofDigitsAcc 0 rd.1
    match skipWs rd.2 with
    | a :: b :: c :: s3 =>
      match monthFromAbbrev [a, b, c] with
      | none => none
      | some m =>
        match parseYear4 (skipWs s3) with
        | none => none
        | some (y, s5) =>
          if s5 = [] then
            if validDate ⟨y, m, day⟩ then some ⟨y, m, day⟩ else none
          else none
    | _ => none

/-- `parse_short_date`: parse the pattern `%e %b %y`, with chrono's
two-digit-year expansion. -/
def parseShortDate (cs : List Char) : Option Date :=
  let s0 := skipWs cs
  let rd := takeDigitsN 2 s0
  if rd.1 = [] then none
  else
    let day := ofDigitsAcc 0 rd.1
    match skipWs rd.2 with
    | a :: b :: c :: s3 =>
      match monthFromAbbrev [a, b, c] with
      | none => none
      | some m =>
        let ry := takeDigitsN 2 (skipWs s3)
        if ry.1 = [] then none
        else
          let yy := ofDigitsAcc 0 ry.1
          let y : Int := if yy ≤ 68 then 2000 + yy else 1900 + yy
          if ry.2 = [] then
            if validDate ⟨y, m, day⟩ then some ⟨y, m, day⟩ else none
          else none
    | _ => none

/-! ## Service records and GetServices (src/customer.rs, src/client.rs) -/

/-- Decode a `Price` on the wire (`try_from = "String"`): a JSON string
put through `Price::from_str`. -/
def decodePrice : Json → Except DecErr Nat
  | .str s => priceFromStr s
  | _ => .error .fail

/-- Decode a long-format date field. -/
def decodeLongDate : Json → Except DecErr Date
  | .str s =>
    match parseLongDate s.data with
    | some d => .ok d
    | none => .error .fail
  | _ => .error .fail

/-- Decode a short-format date field. -/
def decodeShortDate : Json → Except DecErr Date
  | .str s =>
    match parseShortDate s.data with
    | some d => .ok d
    | none => .error .fail
  | _ => .error .fail

/-- Decode an optional string (JSON null becomes `None`). -/
def decodeOptString : Json → Except DecErr (Option String)
  | .null => .ok none
  | .str s => .ok (some s)
  | _ => .error .fail

/-- The `Service` base record; `rest` is the open bag of unrecognized
wire fields collected by `serde(flatten)` into a `HashMap`. -/
structure Service where
  id : Nat
  description : String
  monthly_charge : Nat
  contract_start_date : Date
  contract_end_date : Date
  current_contract : Nat
  billing_cycle_progress_percentage : Nat
  in_contract : Bool
  payment_via : String
  payment_expiry : Option String
  plan_change : Bool
  service_number : String
  service_type : String
  next_billing_cycle_start : Date
  rest : List (String × Json)

/-- The camelCase wire names of the explicitly modelled `Service`
fields. -/
def knownServiceFields : List String :=
  ["id", "description", "monthlyCharge", "contractStartDate", "contractEndDate",
   "currentContract", "billingCycleProgressPercentage", "inContract", "paymentVia",
   "paymentExpiry", "planChange", "serviceNumber", "serviceType",
   "nextBillingCycleStart"]

/-- Insert into an association list with last-write-wins semantics, as a
`HashMap` insert (ordering aside). -/
def assocInsert (m : List (String × Json)) (k : String) (v : Json) :
    List (String × Json) :=
  if m.any (fun p => p.1 = k) then m.map (fun p => if p.1 = k then (k, v) else p)
  else m ++ [(k, v)]

/-- Collect the wire fields not named by `Service` into the open bag. -/
def restBag (fs : List (String × Json)) : List (String × Json) :=
  fs.foldl (fun m p =>
    if knownServiceFields.contains p.1 then m else assocInsert m p.1 p.2) []

/-- Decode a `Service` record from a JSON object: each named field is
required (except the optional `paymentExpiry`), with camelCase wire
names, and all remaining fields are collected into `rest`. -/
def decodeService : Json → Except DecErr Service
  | .obj fs => do
    let id ← reqField fs "id" decodeU64
    let description ← reqField fs "description" decodeStringJ
    let monthly ← reqField fs "monthlyCharge" decodePrice
    let cstart ← reqField fs "contractStartDate" decodeLongDate
    let cend ← reqField fs "contractEndDate" decodeLongDate
    let ccontract ← reqField fs "currentContract" decodeU64
    let bill ← reqField fs "billingCycleProgressPercentage" decodePercentage
    let inc ← reqField fs "inContract" decodeBoolJ
    let pvia ← reqField fs "paymentVia" decodeStringJ
    let pexp ← optField fs "paymentExpiry" decodeOptString
    let pchange ← reqField fs "planChange" decodeBoolJ
    let snum ← reqField fs "serviceNumber" decodeStringJ
    let stype ← reqField fs "serviceType" decodeStringJ
    let nbill ← reqField fs "nextBillingCycleStart" decodeShortDate
    .ok ⟨id, description, monthly, cstart, cend, ccontract, bill, inc, pvia,
         pexp.join, pchange, snum, stype, nbill, restBag fs⟩
  | _ => .error .fail

/-- A broadband service: structurally the base record, flattened. -/
structure BroadbandService where
  service : Service

/-- A mobile service: structurally the base record, flattened. -/
structure MobileService where
  service : Service

/-- A phone service: structurally the base record, flattened. -/
structure PhoneService where
  service : Service

/-- A voip service: structurally the base record, flattened. -/
structure VoipService where
  service : Service

/-- Decode a broadband service (the flattened inner record decodes from
the same object). -/
def decodeBroadbandService (j : Json) : Except DecErr BroadbandService :=
  (decodeService j).map BroadbandService.mk

/-- Decode a mobile service. -/
def decodeMobileService (j : Json) : Except DecErr MobileService :=
  (decodeService j).map MobileService.mk

/-- Decode a phone service. -/
def decodePhoneService (j : Json) : Except DecErr PhoneService :=
  (decodeService j).map PhoneService.mk

/-- Decode a voip service. -/
def decodeVoipService (j : Json) : Except DecErr VoipService :=
  (decodeService j).map VoipService.mk

/-- The one-field `data` envelope. -/
structure Data (α : Type) where
  data : α

/-- `Data::unwrap`. -/
def Data.unwrap (d : Data α) : α := d.data

/-- Decode the derived `Data` wrapper: a JSON object with the single
required field `data` (unknown fields ignored). -/
def decodeData (f : Json → Except DecErr α) (j : Json) :
    Except DecErr (Data α) :=
  match j with
  | .obj fs => (reqField fs "data" f).map Data.mk
  | _ => .error .fail

/-- `Data::proxy`: decode a `Data` wrapper and project out its field. -/
def dataProxy (f : Json → Except DecErr α) (j : Json) : Except DecErr α :=
  (decodeData f j).map Data.unwrap

/-- Decode a JSON array elementwise. -/
def decodeListWith (f : Json → Except DecErr α) : Json → Except DecErr (List α)
  | .arr xs => xs.mapM f
  | _ => .error .fail

/-- The `Services` container. -/
structure Services where
  broadband : List BroadbandService
  mobile : List MobileService
  phone : List PhoneService
  voip : List VoipService

/-- Decode `Services`: a JSON object whose four required fields each
hold a `data` envelope around an array of the corresponding variant. -/
def decodeServices : Json → Except DecErr Services
  | .obj fs => do
    let b ← reqField fs "broadband" (dataProxy (decodeListWith decodeBroadbandService))
    let m ← reqField fs "mobile" (dataProxy (decodeListWith decodeMobileService))
    let p ← reqField fs "phone" (dataProxy (decodeListWith decodePhoneService))
    let v ← reqField fs "voip" (dataProxy (decodeListWith decodeVoipService))
    .ok ⟨b, m, p, v⟩
  | _ => .error .fail

/-- `Client::services` on a response body: the typed-query engine
decodes the body as `GetServices`' declared response type
`Data<Services>` and then unwraps the envelope
(`query(&GetServices).map(|data| data.unwrap())`). -/
def servicesResult (body : Json) : Except DecErr Services :=
  (decodeData decodeServices body).map Data.unwrap

/-! ## Lemmas about decimal digits and unsigned-integer parsing -/

theorem natDigitsAux_congr (n : Nat) : ∀ f₁ f₂, n ≤ f₁ → n ≤ f₂ →
    natDigitsAux f₁ n = natDigitsAux f₂ n := by
  induction n using Nat.strong_induction_on with
  | _ n ih =>
    intro f₁ f₂ h₁ h₂
    rcases Nat.eq_zero_or_pos n with hn | hn
    · subst hn
      cases f₁ <;> cases f₂ <;> simp [natDigitsAux]
    · obtain ⟨g₁, rfl⟩ : ∃ g₁, f₁ = g₁ + 1 := ⟨f₁ - 1, by omega⟩
      obtain ⟨g₂, rfl⟩ : ∃ g₂, f₂ = g₂ + 1 := ⟨f₂ - 1, by omega⟩
      have hn' : n ≠ 0 := by omega
      simp only [natDigitsAux, if_neg hn']
      rw [ih (n / 10) (by omega) g₁ g₂ (by omega) (by omega)]

theorem natDigits_eq (n : Nat) (hn : n ≠ 0) :
    natDigits n = natDigits (n / 10) ++ [n % 10] := by
  obtain ⟨g, rfl⟩ : ∃ g, n = g + 1 := ⟨n - 1, by omega⟩
  show natDigitsAux (g + 1) (g + 1) = _
  simp only [natDigitsAux, if_neg hn]
  rw [natDigitsAux_congr ((g + 1) / 10) g ((g + 1) / 10) (by omega) le_rfl]
  rfl

theorem natDigits_lt10 (n : Nat) : ∀ d ∈ natDigits n, d < 10 := by
  induction n using Nat.strong_induction_on with
  | _ n ih =>
    intro d hd
    rcases Nat.eq_zero_or_pos n with hn | hn
    · subst hn; simp [natDigits, natDigitsAux] at hd
    · rw [natDigits_eq n (by omega)] at hd
      rcases List.mem_append.mp hd with h | h
      · exact ih (n / 10) (by omega) d h
      · simp only [List.mem_singleton] at h
        subst h; omega

theorem natDigits_ne_nil (n : Nat) (hn : n ≠ 0) : natDigits n ≠ [] := by
  rw [natDigits_eq n hn]; simp

theorem ofDigitsAcc_cons (acc d : Nat) (ds : List Nat) :
    ofDigitsAcc acc (d :: ds) = ofDigitsAcc (10 * acc + d) ds := rfl

theorem ofDigitsAcc_append (acc : Nat) (xs ys : List Nat) :
    ofDigitsAcc acc (xs ++ ys) = ofDigitsAcc (ofDigitsAcc acc xs) ys := by
  simp [ofDigitsAcc, List.foldl_append]

theorem ofDigitsAcc_natDigits (n : Nat) : ∀ acc,
    ofDigitsAcc acc (natDigits n) = acc * 10 ^ (natDigits n).length + n := by
  induction n using Nat.strong_induction_on with
  | _ n ih =>
    intro acc
    rcases Nat.eq_zero_or_pos n with hn | hn
    · subst hn; simp [natDigits, natDigitsAux, ofDigitsAcc]
    · rw [natDigits_eq n (by omega), ofDigitsAcc_append, ih (n / 10) (by omega),
        List.length_append]
      show 10 * (acc * 10 ^ (natDigits (n / 10)).length + n / 10) + n % 10 = _
      calc 10 * (acc * 10 ^ (natDigits (n / 10)).length + n / 10) + n % 10
          = acc * (10 ^ (natDigits (n / 10)).length * 10) + (10 * (n / 10) + n % 10) := by
            ring
        _ = acc * 10 ^ ((natDigits (n / 10)).length + 1) + n := by
            rw [← pow_succ, Nat.div_add_mod]

theorem ofDigitsAcc_le (ds : List Nat) : ∀ acc, acc ≤ ofDigitsAcc acc ds := by
  induction ds with
  | nil => intro acc; exact le_rfl
  | cons d ds ih =>
    intro acc
    rw [ofDigitsAcc_cons]
    exact le_trans (by omega) (ih (10 * acc + d))

theorem natDigitsPad_lt10 (n : Nat) : ∀ d ∈ natDigitsPad n, d < 10 := by
  unfold natDigitsPad
  split
  · intro d hd; simp only [List.mem_singleton] at hd; omega
  · exact natDigits_lt10 n

theorem natDigitsPad_ne_nil (n : Nat) : natDigitsPad n ≠ [] := by
  unfold natDigitsPad
  split
  · simp
  · exact natDigits_ne_nil n (by assumption)

theorem ofDigitsAcc_natDigitsPad (n : Nat) : ofDigitsAcc 0 (natDigitsPad n) = n := by
  unfold natDigitsPad
  split
  · subst n; rfl
  · simpa using ofDigitsAcc_natDigits n 0

theorem digitChar_spec (d : Nat) (h : d < 10) :
    charDigit (digitChar d) = some d ∧ digitChar d ≠ '.' ∧ digitChar d ≠ '+' ∧
    digitChar d ≠ '-' ∧ digitChar d ≠ '$' ∧ (digitChar d).utf8Size = 1 ∧
    (digitChar d).isWhitespace = false := by
  interval_cases d <;>
    exact ⟨by decide, by decide, by decide, by decide, by decide, by decide, by decide⟩

theorem parseDigitsAcc_digits (m : Nat) (ds : List Nat) : ∀ acc, (∀ d ∈ ds, d < 10) →
    ofDigitsAcc acc ds ≤ m →
    parseDigitsAcc m acc (ds.map digitChar) = .ok (ofDigitsAcc acc ds) := by
  induction ds with
  | nil => intro acc _ _; rfl
  | cons d ds ih =>
    intro acc hds hle
    have hd : d < 10 := hds d (by simp)
    rw [ofDigitsAcc_cons] at hle ⊢
    simp only [List.map_cons, parseDigitsAcc, (digitChar_spec d hd).1]
    have hbound : ¬ m < 10 * acc + d := by
      have := ofDigitsAcc_le ds (10 * acc + d)
      omega
    rw [if_neg hbound]
    exact ih (10 * acc + d) (fun x hx => hds x (by simp [hx])) hle

theorem parseUInt_digits (m : Nat) (ds : List Nat) (h0 : ds ≠ [])
    (hds : ∀ d ∈ ds, d < 10) (hle : ofDigitsAcc 0 ds ≤ m) :
    parseUInt m (ds.map digitChar) = .ok (ofDigitsAcc 0 ds) := by
  match ds, h0 with
  | d :: ds', _ =>
    have hd : d < 10 := hds d (by simp)
    simp only [List.map_cons, parseUInt]
    rw [if_neg (digitChar_spec d hd).2.2.1]
    exact parseDigitsAcc_digits m (d :: ds') 0 hds hle

theorem parseUInt_decimal (m n : Nat) (h : n ≤ m) :
    parseUInt m (natDecimalChars n) = .ok n := by
  have := parseUInt_digits m (natDigitsPad n) (natDigitsPad_ne_nil n)
    (natDigitsPad_lt10 n) (by rw [ofDigitsAcc_natDigitsPad]; exact h)
  rw [ofDigitsAcc_natDigitsPad] at this
  exact this

theorem parseDigitsAcc_le (m : Nat) (cs : List Char) : ∀ acc v, acc ≤ m →
    parseDigitsAcc m acc cs = .ok v → v ≤ m := by
  induction cs with
  | nil =>
    intro acc v ha h
    simp only [parseDigitsAcc, Except.ok.injEq] at h
    omega
  | cons c cs ih =>
    intro acc v ha h
    simp only [parseDigitsAcc] at h
    cases hc : charDigit c with
    | none => simp only [hc] at h; exact absurd h (by simp)
    | some d =>
      simp only [hc] at h
      by_cases hb : m < 10 * acc + d
      · simp only [if_pos hb] at h; exact absurd h (by simp)
      · rw [if_neg hb] at h
        exact ih (10 * acc + d) v (by omega) h

theorem parseUInt_le (m : Nat) (cs : List Char) (v : Nat)
    (h : parseUInt m cs = .ok v) : v ≤ m := by
  cases cs with
  | nil => simp [parseUInt] at h
  | cons c rest =>
    simp only [parseUInt] at h
    by_cases hp : c = '+'
    · rw [if_pos hp] at h
      by_cases hr : rest = []
      · rw [if_pos hr] at h; exact absurd h (by simp)
      · rw [if_neg hr] at h
        exact parseDigitsAcc_le m rest 0 v (by omega) h
    · rw [if_neg hp] at h
      exact parseDigitsAcc_le m (c :: rest) 0 v (by omega) h

/-! ## Lemmas about Price parsing -/

theorem splitDot_no_dot (xs : List Char) (h : '.' ∉ xs) : splitDot xs = [xs] := by
  induction xs with
  | nil => rfl
  | cons c cs ih =>
    have hc : c ≠ '.' := fun hc => h (by simp [hc])
    have hcs : '.' ∉ cs := fun hm => h (by simp [hm])
    simp only [splitDot, if_neg hc, ih hcs]

theorem splitDot_append (xs ys : List Char) (h : '.' ∉ xs) :
    splitDot (xs ++ '.' :: ys) = xs :: splitDot ys := by
  induction xs with
  | nil => simp [splitDot]
  | cons c cs ih =>
    have hc : c ≠ '.' := fun hc => h (by simp [hc])
    have hcs : '.' ∉ cs := fun hm => h (by simp [hm])
    show splitDot (c :: (cs ++ '.' :: ys)) = (c :: cs) :: splitDot ys
    simp only [splitDot, if_neg hc, ih hcs]

theorem natDecimalChars_no_dot (n : Nat) : '.' ∉ natDecimalChars n := by
  intro h
  simp only [natDecimalChars, List.mem_map] at h
  obtain ⟨d, hd, hdc⟩ := h
  exact (digitChar_spec d (natDigitsPad_lt10 n d hd)).2.1 hdc

theorem pad2Chars_no_dot (n : Nat) : '.' ∉ pad2Chars n := by
  unfold pad2Chars
  split
  · intro h
    rcases List.mem_cons.mp h with h | h
    · exact absurd h (by decide)
    · exact natDecimalChars_no_dot n h
  · exact natDecimalChars_no_dot n

theorem priceBody_pair (W F : List Char) (hW : '.' ∉ W) (hF : '.' ∉ F) :
    priceBody (W ++ '.' :: F) = priceAccum 0 [W, F] := by
  unfold priceBody
  rw [splitDot_append W F hW, splitDot_no_dot F hF]
  simp

theorem priceAccum_pair (W F : List Char) (w f : Nat)
    (hW : parseUInt u32Max W = .ok w) (hF : parseUInt u32Max F = .ok f) :
    priceAccum 0 [W, F] = .ok ((w * 100 + f) % u32Mod) := by
  have hw : w ≤ u32Max := parseUInt_le _ _ _ hW
  simp only [priceAccum, hW, hF]
  have harith : ((0 * 100 % u32Mod + w) % u32Mod * 100 % u32Mod + f) % u32Mod
      = (w * 100 + f) % u32Mod := by
    simp only [u32Mod, u32Max] at *
    omega
  rw [harith]

theorem priceFromChars_dollar (rest : List Char) :
    priceFromChars ('$' :: rest) = priceBody rest := by
  simp [priceFromChars]

theorem parseUInt_pad2 (n : Nat) (h : n < 100) :
    parseUInt u32Max (pad2Chars n) = .ok n := by
  unfold pad2Chars
  split
  · have hmap : '0' :: natDecimalChars n = (0 :: natDigitsPad n).map digitChar := rfl
    have hval : ofDigitsAcc 0 (0 :: natDigitsPad n) = n := ofDigitsAcc_natDigitsPad n
    rw [hmap]
    rw [parseUInt_digits u32Max (0 :: natDigitsPad n) (by simp) ?_ ?_]
    · rw [hval]
    · intro d hd
      rcases List.mem_cons.mp hd with h' | h'
      · omega
      · exact natDigitsPad_lt10 n d h'
    · rw [hval]
      simp only [u32Max]
      omega
  · exact parseUInt_decimal u32Max n (by simp only [u32Max]; omega)

theorem priceAccum_ne_panic (gs : List (List Char)) : ∀ v,
    priceAccum v gs ≠ .error .panic := by
  induction gs with
  | nil => intro v h; simp [priceAccum] at h
  | cons g gs ih =>
    intro v
    simp only [priceAccum]
    cases hp : parseUInt u32Max g with
    | error e => simp
    | ok n => exact ih _

theorem priceBody_ne_panic (t : List Char) : priceBody t ≠ .error .panic :=
  priceAccum_ne_panic _ 0

/-! ## Claims about the Price codec -/

/-- C5: for every cent value representable by the `u32` inside `Price`,
parsing the formatted string round-trips exactly; in particular
`$12.34` parses to 1234 cents and `12` to 1200 cents. -/
theorem price_roundtrip (c : Nat) (h : c < 4294967296) :
    priceFromStr (priceFormat c) = .ok c ∧
    priceFromStr "$12.34" = .ok 1234 ∧ priceFromStr "12" = .ok 1200 := by
  refine ⟨?_, rfl, rfl⟩
  show priceFromChars (priceFormatChars c) = .ok c
  unfold priceFormatChars
  rw [priceFromChars_dollar,
    priceBody_pair _ _ (natDecimalChars_no_dot _) (pad2Chars_no_dot _),
    priceAccum_pair _ _ (c / 100) (c % 100)
      (parseUInt_decimal _ _ (by simp only [u32Max]; omega))
      (parseUInt_pad2 _ (by omega))]
  have : (c / 100 * 100 + c % 100) % u32Mod = c := by
    simp only [u32Mod]
    omega
  rw [this]

/-- C5 witness: the round-trip at the concrete value 1234. -/
theorem price_roundtrip_witness :
    (1234 : Nat) < 4294967296 ∧ priceFromStr (priceFormat 1234) = .ok 1234 :=
  ⟨by norm_num, (price_roundtrip 1234 (by norm_num)).1⟩

/-- C7 counterexample: the input `1.2.3` has three `.`-separated groups
(and no leading `$` to strip), yet `Price::from_str` succeeds with 102
cents instead of failing — groups beyond the second are silently
ignored. -/
theorem price_three_groups_succeeds :
    (splitDot "1.2.3".data).length = 3 ∧ priceFromStr "1.2.3" = .ok 102 :=
  ⟨rfl, rfl⟩

theorem priceBody_extra (x y z : List Char) (hx : '.' ∉ x) (hy : '.' ∉ y) :
    priceBody (x ++ '.' :: (y ++ '.' :: z)) = priceBody (x ++ '.' :: y) := by
  unfold priceBody
  rw [splitDot_append x _ hx, splitDot_append y z hy,
    splitDot_append x y hx, splitDot_no_dot y hy]
  simp

/-- C7 amended: groups beyond the second are ignored, not rejected:
appending a further `.`-separated tail to a two-group input leaves the
result of `Price::from_str` unchanged. -/
theorem price_extra_groups_ignored (x y z : List Char)
    (hx : '.' ∉ x) (hy : '.' ∉ y) :
    priceFromChars (x ++ '.' :: (y ++ '.' :: z)) =
      priceFromChars (x ++ '.' :: y) := by
  cases x with
  | nil =>
    simp only [List.nil_append]
    show priceFromChars ('.' :: (y ++ '.' :: z)) = priceFromChars ('.' :: y)
    simp only [priceFromChars]
    rw [if_neg (by decide : ¬ ('.' : Char) = '$'), if_neg (by decide : ¬ 1 < ('.' : Char).utf8Size)]
    exact priceBody_extra [] y z (by simp) hy
  | cons c x' =>
    have hx' : '.' ∉ x' := fun hm => hx (by simp [hm])
    simp only [List.cons_append, priceFromChars]
    by_cases hd : c = '$'
    · rw [if_pos hd, if_pos hd]
      exact priceBody_extra x' y z hx' hy
    · rw [if_neg hd, if_neg hd]
      by_cases hs : 1 < c.utf8Size
      · rw [if_pos hs, if_pos hs]
      · rw [if_neg hs, if_neg hs]
        exact priceBody_extra (c :: x') y z hx hy

/-- C7 witness: ignoring the extra group at the concrete input
`1.2.3`. -/
theorem price_extra_groups_ignored_witness :
    priceFromChars ("1".data ++ '.' :: ("2".data ++ '.' :: "3".data)) =
      priceFromChars ("1".data ++ '.' :: "2".data) :=
  price_extra_groups_ignored "1".data "2".data "3".data (by decide) (by decide)

/-- C9 counterexample: `Price::from_str` panics on the input `é`, whose
first character occupies two bytes: the leading-`$` check slices the
first byte of the string, which is not a character boundary. -/
theorem price_parse_panics_on_multibyte : priceFromStr "é" = .error .panic := rfl

/-- C9 amended: `Price::from_str` is total and panic-free on every
string whose first character (if any) is a single UTF-8 byte; it is
not total on arbitrary Unicode strings, panicking when the first
character is multi-byte. -/
theorem price_parse_total_single_byte_head (s : String)
    (h : headOneByte s = true) : priceFromStr s ≠ .error .panic := by
  cases hd : s.data with
  | nil =>
    rw [show priceFromStr s = priceFromChars s.data from rfl, hd]
    exact priceBody_ne_panic []
  | cons c rest =>
    rw [show priceFromStr s = priceFromChars s.data from rfl, hd]
    unfold headOneByte at h
    rw [hd] at h
    have hsz : c.utf8Size = 1 := by simpa using h
    simp only [priceFromChars]
    by_cases hc : c = '$'
    · rw [if_pos hc]; exact priceBody_ne_panic rest
    · rw [if_neg hc, if_neg (by simp [hsz])]
      exact priceBody_ne_panic (c :: rest)

/-- C9 witness: panic-freedom at the concrete ASCII input `12`. -/
theorem price_parse_total_single_byte_head_witness :
    headOneByte "12" = true ∧ priceFromStr "12" ≠ .error .panic :=
  ⟨rfl, price_parse_total_single_byte_head "12" rfl⟩

/-- C10 counterexample: the accumulator wraps modulo `2^32` instead of
rejecting: `42949673.0` has exact cent value 4294967300, which exceeds
`u32::MAX`, yet parsing succeeds with the wrapped value 4. -/
theorem price_accumulator_wraps :
    priceFromStr "42949673.0" = .ok 4 ∧
    42949673 * 100 + 0 = 4294967300 ∧ (4294967296 : Nat) ≤ 4294967300 :=
  ⟨rfl, by norm_num, by norm_num⟩

/-- C10 amended: each accepted group must itself fit in `u32`, but the
accumulation `w * 100 + f` is performed with wrapping `u32` arithmetic,
so inputs whose exact cent value exceeds `u32::MAX` are accepted with
the value reduced modulo `2^32` rather than rejected. -/
theorem price_two_groups_mod_u32 (g₁ g₂ : List Char) (c : Char) (w f : Nat)
    (hhead : g₁.head? = some c) (hc : c ≠ '$') (hsz : c.utf8Size = 1)
    (h₁ : '.' ∉ g₁) (h₂ : '.' ∉ g₂)
    (hW : parseUInt u32Max g₁ = .ok w) (hF : parseUInt u32Max g₂ = .ok f) :
    priceFromChars (g₁ ++ '.' :: g₂) = .ok ((w * 100 + f) % u32Mod) := by
  match g₁, hhead with
  | c₁ :: rest, hhead =>
    have hc1 : c₁ = c := by simpa using hhead
    rw [← hc1] at hc hsz
    simp only [List.cons_append, priceFromChars]
    rw [if_neg hc, if_neg (by simp [hsz])]
    show priceBody ((c₁ :: rest) ++ '.' :: g₂) = _
    rw [priceBody_pair _ _ h₁ h₂]
    exact priceAccum_pair _ _ w f hW hF

/-- C10 witness: the wrapped accumulation at the concrete groups
`42949673` and `0`. -/
theorem price_two_groups_mod_u32_witness :
    priceFromChars ("42949673".data ++ '.' :: "0".data) =
      .ok ((42949673 * 100 + 0) % u32Mod) :=
  price_two_groups_mod_u32 "42949673".data "0".data '4' 42949673 0
    rfl (by decide) (by decide) (by decide) (by decide) rfl rfl

/-! ## Lemmas about the date codecs -/

theorem skipWs_ws (c : Char) (cs : List Char) (h : c.isWhitespace = true) :
    skipWs (c :: cs) = skipWs cs := by
  simp [skipWs, h]

theorem skipWs_eq_of_head (cs : List Char)
    (h : ∀ ch, cs.head? = some ch → ch.isWhitespace = false) : skipWs cs = cs := by
  cases cs with
  | nil => rfl
  | cons c cs' =>
    have := h c (by simp)
    simp [skipWs, this]

theorem takeDigitsAll_map (ds : List Nat) (rest : List Char)
    (hds : ∀ d ∈ ds, d < 10)
    (hrest : ∀ ch, rest.head? = some ch → charDigit ch = none) :
    takeDigitsAll (ds.map digitChar ++ rest) = (ds, rest) := by
  induction ds with
  | nil =>
    simp only [List.map_nil, List.nil_append]
    cases rest with
    | nil => rfl
    | cons c cs =>
      have := hrest c (by simp)
      simp [takeDigitsAll, this]
  | cons d ds ih =>
    obtain ⟨h1, -, -, -, -, -, -⟩ := digitChar_spec d (hds d (by simp))
    simp only [List.map_cons, List.cons_append, takeDigitsAll, h1]
    rw [show (List.map digitChar ds).append rest = List.map digitChar ds ++ rest from rfl,
      ih (fun x hx => hds x (by simp [hx]))]

theorem takeDigitsN_map (ds : List Nat) : ∀ (n : Nat) (rest : List Char),
    ds.length ≤ n → (∀ d ∈ ds, d < 10) →
    (∀ ch, rest.head? = some ch → charDigit ch = none) →
    takeDigitsN n (ds.map digitChar ++ rest) = (ds, rest) := by
  induction ds with
  | nil =>
    intro n rest _ _ hrest
    simp only [List.map_nil, List.nil_append]
    cases n with
    | zero => rfl
    | succ n =>
      cases rest with
      | nil => rfl
      | cons c cs =>
        have := hrest c (by simp)
        simp [takeDigitsN, this]
  | cons d ds ih =>
    intro n rest hlen hds hrest
    obtain ⟨g, rfl⟩ : ∃ g, n = g + 1 := ⟨n - 1, by simp at hlen; omega⟩
    obtain ⟨h1, -, -, -, -, -, -⟩ := digitChar_spec d (hds d (by simp))
    simp only [List.map_cons, List.cons_append, takeDigitsN, h1]
    rw [show (List.map digitChar ds).append rest = List.map digitChar ds ++ rest from rfl,
      ih g rest (by simp at hlen ⊢; omega) (fun x hx => hds x (by simp [hx])) hrest]

theorem natDigitsPad_len_le2 (n : Nat) (h : n < 100) :
    (natDigitsPad n).length ≤ 2 := by
  unfold natDigitsPad
  split
  · simp
  · rename_i hn
    rw [natDigits_eq n hn]
    by_cases h10 : n / 10 = 0
    · rw [h10]
      simp [natDigits, natDigitsAux]
    · rw [natDigits_eq (n / 10) h10]
      have h100 : n / 10 / 10 = 0 := by omega
      rw [h100]
      simp [natDigits, natDigitsAux]

theorem pad4Digits_lt10 (n : Nat) : ∀ d ∈ pad4Digits n, d < 10 := by
  intro d hd
  unfold pad4Digits at hd
  rcases List.mem_append.mp hd with h | h
  · have := List.eq_of_mem_replicate h
    omega
  · exact natDigitsPad_lt10 n d h

theorem pad4Digits_ne_nil (n : Nat) : pad4Digits n ≠ [] := by
  unfold pad4Digits
  intro h
  rcases List.append_eq_nil.mp h with ⟨-, h2⟩
  exact natDigitsPad_ne_nil n h2

theorem ofDigitsAcc_zero_replicate (k : Nat) (ds : List Nat) :
    ofDigitsAcc 0 (List.replicate k 0 ++ ds) = ofDigitsAcc 0 ds := by
  induction k with
  | zero => rfl
  | succ k ih =>
    rw [List.replicate_succ, List.cons_append, ofDigitsAcc_cons]
    simpa using ih

theorem ofDigitsAcc_pad4 (n : Nat) : ofDigitsAcc 0 (pad4Digits n) = n := by
  unfold pad4Digits
  rw [ofDigitsAcc_zero_replicate]
  exact ofDigitsAcc_natDigitsPad n

theorem takeDigitsAll_map_nil (ds : List Nat) (hds : ∀ d ∈ ds, d < 10) :
    takeDigitsAll (ds.map digitChar) = (ds, []) := by
  have := takeDigitsAll_map ds [] hds (by intro ch h; simp at h)
  simpa using this

theorem map_digitChar_head_not_ws (ds : List Nat) (hds : ∀ d ∈ ds, d < 10) :
    ∀ ch, (ds.map digitChar).head? = some ch → ch.isWhitespace = false := by
  cases ds with
  | nil => intro ch h; simp at h
  | cons d ds' =>
    intro ch h
    simp only [List.map_cons, List.head?_cons, Option.some.injEq] at h
    subst h
    obtain ⟨-, -, -, -, -, -, hws⟩ := digitChar_spec d (hds d (by simp))
    exact hws

theorem natDecimalChars_head_not_ws (n : Nat) (rest : List Char) :
    ∀ ch, (natDecimalChars n ++ rest).head? = some ch → ch.isWhitespace = false := by
  obtain ⟨d₀, ds', hpd⟩ := List.exists_cons_of_ne_nil (natDigitsPad_ne_nil n)
  intro ch hch
  unfold natDecimalChars at hch
  rw [hpd] at hch
  simp only [List.map_cons, List.cons_append, List.head?_cons, Option.some.injEq] at hch
  subst hch
  obtain ⟨-, -, -, -, -, -, hws⟩ :=
    digitChar_spec d₀ (natDigitsPad_lt10 n d₀ (by rw [hpd]; simp))
  exact hws

theorem format_day_parse (day : Nat) (h2 : day ≤ 31) (rest : List Char)
    (hrest : ∀ ch, rest.head? = some ch → charDigit ch = none) :
    takeDigitsN 2 (skipWs (padSpace2 day ++ rest)) = (natDigitsPad day, rest) := by
  have hlen : (natDigitsPad day).length ≤ 2 := natDigitsPad_len_le2 day (by omega)
  have hds := natDigitsPad_lt10 day
  unfold padSpace2
  split
  · show takeDigitsN 2 (skipWs (' ' :: (natDecimalChars day ++ rest))) = _
    rw [skipWs_ws ' ' _ (by decide),
      skipWs_eq_of_head _ (natDecimalChars_head_not_ws day rest)]
    exact takeDigitsN_map (natDigitsPad day) 2 rest hlen hds hrest
  · rw [skipWs_eq_of_head _ (natDecimalChars_head_not_ws day rest)]
    exact takeDigitsN_map (natDigitsPad day) 2 rest hlen hds hrest

theorem yearChars4_head_not_ws (y : Int) :
    ∀ ch, (yearChars4 y).head? = some ch → ch.isWhitespace = false := by
  unfold yearChars4
  split
  · intro ch hch
    simp only [List.head?_cons, Option.some.injEq] at hch
    subst hch
    decide
  · exact map_digitChar_head_not_ws (pad4Digits y.toNat) (pad4Digits_lt10 _)

theorem parseYear4_format (y : Int) : parseYear4 (yearChars4 y) = some (y, []) := by
  unfold yearChars4
  split
  · rename_i hy
    simp only [parseYear4]
    rw [takeDigitsAll_map_nil (pad4Digits (-y).toNat) (pad4Digits_lt10 _)]
    simp [pad4Digits_ne_nil, ofDigitsAcc_pad4]
    omega
  · rename_i hy
    obtain ⟨d₀, ds', hpd⟩ := List.exists_cons_of_ne_nil (pad4Digits_ne_nil y.toNat)
    have hd₀ : d₀ < 10 := pad4Digits_lt10 _ d₀ (by rw [hpd]; simp)
    obtain ⟨-, -, hplus, hminus, -, -, -⟩ := digitChar_spec d₀ hd₀
    rw [hpd]
    simp only [List.map_cons, parseYear4]
    rw [if_neg hminus, if_neg hplus, ← List.map_cons,
      takeDigitsAll_map_nil (d₀ :: ds')
        (fun x hx => pad4Digits_lt10 y.toNat x (hpd ▸ hx)),
      ← hpd]
    simp [pad4Digits_ne_nil, ofDigitsAcc_pad4]
    omega

theorem daysInMonth_le31 (y : Int) (m : Nat) : daysInMonth y m ≤ 31 := by
  unfold daysInMonth
  split_ifs <;> omega

theorem parseLongDate_format_aux (y : Int) (m day : Nat) (a b c : Char)
    (habb : monthAbbrev m = [a, b, c])
    (hnw : a.isWhitespace = false)
    (hmf : monthFromAbbrev [a, b, c] = some m)
    (hvalid : validDate ⟨y, m, day⟩ = true) :
    parseLongDate (formatLongDate ⟨y, m, day⟩) = some ⟨y, m, day⟩ := by
  have hday : day ≤ 31 := by
    have h31 := daysInMonth_le31 y m
    simp only [validDate, Bool.and_eq_true, decide_eq_true_eq] at hvalid
    omega
  show parseLongDate
      (padSpace2 day ++ ' ' :: (monthAbbrev m ++ ' ' :: yearChars4 y)) = _
  rw [habb]
  simp only [parseLongDate]
  rw [format_day_parse day hday _ (by intro ch hch; simp at hch; subst hch; decide)]
  simp only [if_neg (natDigitsPad_ne_nil day), ofDigitsAcc_natDigitsPad]
  rw [skipWs_ws ' ' _ (by decide)]
  show (match skipWs ([a, b, c] ++ ' ' :: yearChars4 y) with
    | a :: b :: c :: s3 =>
      match monthFromAbbrev [a, b, c] with
      | none => none
      | some m =>
        match parseYear4 (skipWs s3) with
        | none => none
        | some (y, s5) =>
          if s5 = [] then
            if validDate (Date.mk y m day) then some (Date.mk y m day) else none
          else none
    | _ => (none : Option Date)) = _
  rw [skipWs_eq_of_head _ (by intro ch hch; simp at hch; subst hch; exact hnw)]
  simp only [List.cons_append, List.nil_append, hmf]
  rw [skipWs_ws ' ' _ (by decide),
    skipWs_eq_of_head _ (yearChars4_head_not_ws y), parseYear4_format]
  simp only [if_pos rfl, hvalid, if_true]

/-! ## Claims about the date codecs -/

/-- C8 counterexample: `unparse_date` formats 2024-01-05 as
a space-padded day (chrono's `%e`), so the result is not the claimed
string with an unpadded one-digit day. -/
theorem long_date_format_space_padded :
    String.mk (formatLongDate ⟨2024, 1, 5⟩) ≠ "5 Jan 2024" := by
  decide

/-- C8 amended: the long-date codec formats 2024-01-05 as the string
with a space-padded day (day space-padded to two characters,
abbreviated month, four-digit year), and for every valid calendar date
the round-trip `parse (format d) = d` holds. -/
theorem long_date_roundtrip (d : Date) (h : validDate d = true) :
    parseLongDate (formatLongDate d) = some d ∧
    String.mk (formatLongDate ⟨2024, 1, 5⟩) = " 5 Jan 2024" := by
  refine ⟨?_, by decide⟩
  obtain ⟨y, m, day⟩ := d
  have hm : 1 ≤ m ∧ m ≤ 12 := by
    simp only [validDate, Bool.and_eq_true, decide_eq_true_eq] at h
    omega
  obtain ⟨hm1, hm2⟩ := hm
  interval_cases m <;>
    exact parseLongDate_format_aux y _ day _ _ _ rfl (by decide) (by decide) h

/-- C8 witness: the round-trip at the concrete date 2024-01-05. -/
theorem long_date_roundtrip_witness :
    validDate ⟨2024, 1, 5⟩ = true ∧
    parseLongDate (formatLongDate ⟨2024, 1, 5⟩) = some ⟨2024, 1, 5⟩ :=
  ⟨by decide, (long_date_roundtrip ⟨2024, 1, 5⟩ (by decide)).1⟩

/-! ## Claims about the service-listing decode pipeline -/

/-- A response body of exactly the shape the claim describes: the four
category envelopes at top level, with no additional outer wrapper
(empty service arrays). -/
def flatServicesBody : Json :=
  .obj [("broadband", .obj [("data", .arr [])]),
        ("mobile", .obj [("data", .arr [])]),
        ("phone", .obj [("data", .arr [])]),
        ("voip", .obj [("data", .arr [])])]

/-- C2 counterexample: on a body of the claimed shape (four category
envelopes, no outer wrapper), `Client::services` fails to decode —
`GetServices` declares its response type as `Data<Services>`, so the
engine demands one more outer `data` envelope than the claim allows. -/
theorem services_flat_body_fails :
    servicesResult flatServicesBody = .error .fail := rfl

theorem decodeData_single (f : Json → Except DecErr α) (v : Json) :
    decodeData f (Json.obj [("data", v)]) = (f v).map Data.mk := rfl

theorem dataProxy_list (dec : Json → Except DecErr α) (xs : List Json)
    (v : List α) (h : xs.mapM dec = .ok v) :
    dataProxy (decodeListWith dec) (Json.obj [("data", Json.arr xs)]) = .ok v := by
  unfold dataProxy
  rw [decodeData_single, show decodeListWith dec (Json.arr xs) = xs.mapM dec from rfl, h]
  rfl

/-- C2 amended: `Client::services` decodes bodies carrying one
additional outer `data` envelope around the claimed shape; for every
such body whose four `data` arrays decode elementwise as the
corresponding service variants, the result is the `Services` value
holding exactly those decoded lists. -/
theorem services_enveloped_decodes (bs ms ps vs : List Json)
    (bs' : List BroadbandService) (ms' : List MobileService)
    (ps' : List PhoneService) (vs' : List VoipService)
    (hb : bs.mapM decodeBroadbandService = .ok bs')
    (hm : ms.mapM decodeMobileService = .ok ms')
    (hp : ps.mapM decodePhoneService = .ok ps')
    (hv : vs.mapM decodeVoipService = .ok vs') :
    servicesResult (.obj [("data", .obj
      [("broadband", .obj [("data", .arr bs)]),
       ("mobile", .obj [("data", .arr ms)]),
       ("phone", .obj [("data", .arr ps)]),
       ("voip", .obj [("data", .arr vs)])])]) = .ok ⟨bs', ms', ps', vs'⟩ := by
  have hS : decodeServices (.obj
      [("broadband", .obj [("data", .arr bs)]),
       ("mobile", .obj [("data", .arr ms)]),
       ("phone", .obj [("data", .arr ps)]),
       ("voip", .obj [("data", .arr vs)])]) = .ok ⟨bs', ms', ps', vs'⟩ := by
    have e1 : reqField
        [("broadband", Json.obj [("data", Json.arr bs)]),
         ("mobile", Json.obj [("data", Json.arr ms)]),
         ("phone", Json.obj [("data", Json.arr ps)]),
         ("voip", Json.obj [("data", Json.arr vs)])] "broadband"
        (dataProxy (decodeListWith decodeBroadbandService)) = .ok bs' := by
      show dataProxy (decodeListWith decodeBroadbandService)
        (Json.obj [("data", Json.arr bs)]) = .ok bs'
      exact dataProxy_list _ bs bs' hb
    have e2 : reqField
        [("broadband", Json.obj [("data", Json.arr bs)]),
         ("mobile", Json.obj [("data", Json.arr ms)]),
         ("phone", Json.obj [("data", Json.arr ps)]),
         ("voip", Json.obj [("data", Json.arr vs)])] "mobile"
        (dataProxy (decodeListWith decodeMobileService)) = .ok ms' := by
      show dataProxy (decodeListWith decodeMobileService)
        (Json.obj [("data", Json.arr ms)]) = .ok ms'
      exact dataProxy_list _ ms ms' hm
    have e3 : reqField
        [("broadband", Json.obj [("data", Json.arr bs)]),
         ("mobile", Json.obj [("data", Json.arr ms)]),
         ("phone", Json.obj [("data", Json.arr ps)]),
         ("voip", Json.obj [("data", Json.arr vs)])] "phone"
        (dataProxy (decodeListWith decodePhoneService)) = .ok ps' := by
      show dataProxy (decodeListWith decodePhoneService)
        (Json.obj [("data", Json.arr ps)]) = .ok ps'
      exact dataProxy_list _ ps ps' hp
    have e4 : reqField
        [("broadband", Json.obj [("data", Json.arr bs)]),
         ("mobile", Json.obj [("data", Json.arr ms)]),
         ("phone", Json.obj [("data", Json.arr ps)]),
         ("voip", Json.obj [("data", Json.arr vs)])] "voip"
        (dataProxy (decodeListWith decodeVoipService)) = .ok vs' := by
      show dataProxy (decodeListWith decodeVoipService)
        (Json.obj [("data", Json.arr vs)]) = .ok vs'
      exact dataProxy_list _ vs vs' hv
    simp only [decodeServices]
    rw [e1, e2, e3, e4]
    rfl
  show (decodeData decodeServices _).map Data.unwrap = _
  rw [decodeData_single, hS]
  rfl

/-- C2 witness: the enveloped decode at the concrete body with four
empty arrays. -/
theorem services_enveloped_decodes_witness :
    servicesResult (.obj [("data", .obj
      [("broadband", .obj [("data", .arr [])]),
       ("mobile", .obj [("data", .arr [])]),
       ("phone", .obj [("data", .arr [])]),
       ("voip", .obj [("data", .arr [])])])]) = .ok ⟨[], [], [], []⟩ :=
  services_enveloped_decodes [] [] [] [] [] [] [] [] rfl rfl rfl rfl

/-! ## Claims about the authorization lifecycle -/

/-- A concrete `Authorization` as produced by a successful login at
time 1000 with a 3600-second token lifetime. -/
def exampleAuth : Authorization :=
  ⟨1000, ⟨.bearer, 3600, ⟨"abc"⟩, ⟨"xyz"⟩, false⟩⟩

/-- C1 counterexample: the claim states that `should_refresh` is false
immediately after construction and true exactly when
`now > expires_at + 300`; but for a token issued at 1000 with lifetime
3600, at `now = 1000` (immediately after construction) the source
returns true while `1000 > 4600 + 300` is false. -/
theorem should_refresh_true_when_fresh :
    ¬ (exampleAuth.should_refresh 1000 = true ↔
        1000 > exampleAuth.expires_at + 300) := by
  decide

/-- C1 amended: `should_refresh` returns true if and only if the clock
has not yet passed `expires_at + 300` seconds, that is, it is true
immediately after construction and becomes false exactly once
`now ≥ expires_at + 5 minutes` (the comparison in the source is the
reverse of the one the claim states). -/
theorem should_refresh_iff (a : Authorization) (now : Nat) :
    a.should_refresh now = true ↔ now < a.expires_at + 300 := by
  simp [Authorization.should_refresh, refreshWindow]

/-- C3: the serialized login request body always contains the
`accessToken` key with value null (the `skip_serializing_if`
predicate is `Option::is_some`, so the always-`None` field is never
skipped), alongside `password`, `persistLogin: false` and `username`. -/
theorem login_body_contains_access_token_null (u p : String) :
    (AuthQuery.new u p).serialize =
      Json.obj [("accessToken", .null), ("password", .str p),
                ("persistLogin", .bool false), ("username", .str u)] := by
  rfl

/-- A login response body that decodes successfully: the field names the
source expects (snake_case except `persistLogin`). -/
def goodLoginBody : Json :=
  .obj [("token_type", .str "Bearer"), ("expires_in", .num 3600),
        ("access_token", .str "abc"), ("refresh_token", .str "xyz"),
        ("persistLogin", .bool false)]

/-- C4 counterexample: a response with status 500 (not 2xx) whose body
parses as a valid login response makes `authenticate` succeed — the
source never inspects the status code, so a non-2xx status is not
sufficient for failure. -/
theorem authenticate_ok_on_500 :
    ¬ (200 ≤ 500 ∧ 500 ≤ 299) ∧
    authenticateWith 500 (some goodLoginBody) 1000 =
      .ok ⟨1000, ⟨.bearer, 3600, ⟨"abc"⟩, ⟨"xyz"⟩, false⟩⟩ := by
  exact ⟨by omega, rfl⟩

/-- C4 amended: `authenticate` ignores the HTTP status code entirely:
its result is the same for any two statuses, it succeeds exactly when
the body parses and decodes as a login response, and it fails on a body
that is not JSON. -/
theorem authenticate_ignores_status (s₁ s₂ : Nat) (j : Json) (now : Nat) :
    authenticateWith s₁ (some j) now = authenticateWith s₂ (some j) now ∧
    resultOk (authenticateWith s₁ (some j) now) = resultOk (decodeLoginResponse j) ∧
    authenticateWith s₁ none now = .error .fail := by
  refine ⟨rfl, ?_, rfl⟩
  cases h : decodeLoginResponse j <;> simp [authenticateWith, h, resultOk, Except.map]

/-! ## Claims about the Percentage codec -/

/-- C6 counterexample: the wire codec of `Percentage` does enforce the
`u32` bounds — decoding the integer -1 (or 2^32) fails, so the
round-trip does not extend to negative integers. -/
theorem percentage_rejects_out_of_range :
    decodePercentage (.num (-1)) = .error .fail ∧
    decodePercentage (.num 4294967296) = .error .fail := by
  constructor <;> rfl

/-- C6 amended: the `Percentage` wire codec round-trips on exactly the
`u32` range: `decode (encode n) = n` for every `n < 2^32` (negative
wire integers are rejected by the `u32` decode), and the display form
of 42 is the string built from `42%`. -/
theorem percentage_roundtrip_u32 (n : Nat) (h : n < 4294967296) :
    decodePercentage (encodePercentage n) = .ok n ∧
    percentageDisplay 42 = "42%" := by
  constructor
  · show decodeU32 (.num n) = .ok n
    simp only [decodeU32]
    rw [if_pos ⟨Int.natCast_nonneg n, by exact_mod_cast h⟩]
    simp
  · rfl

/-- C6 witness: the round-trip at the concrete value 42. -/
theorem percentage_roundtrip_u32_witness :
    decodePercentage (encodePercentage 42) = .ok 42 ∧
    percentageDisplay 42 = "42%" :=
  percentage_roundtrip_u32 42 (by norm_num)

end Exetel
